import Mathlib

/-
Verification of the xmlcustomformatter repository (SSRQ-SDS-FDS).

Shallow embedding conventions:
* Python strings are modelled as `List Char`;
* Python `int` is modelled as `Int` (or `Nat` where the quantity is a
  length/width that the code requires to be non-negative);
* code that can raise is modelled in `Except String`;
* the embedded definitions keep the names of the source functions from
  `src/xmlcustomformatter/formatter.py`, `options.py` and
  `stringmanipulation.py` (leading underscores dropped, since Lean reserves
  them for anonymous binders);
* loops and recursions are compiled to structural recursion (with an
  explicit fuel argument where the source iterates on a non-structural
  measure), so that every definition evaluates inside the kernel; fuel
  bounds are justified by dedicated sufficiency theorems.
-/

namespace XmlFmt

/-- The Python regex class `\s` (equivalently the default
`str.strip`/`lstrip`/`rstrip` whitespace set, restricted to ASCII, which is
all the formatter manipulates). -/
def isPySpace (c : Char) : Bool :=
  c = ' ' || c = '\t' || c = '\n' || c = '\r' || c = '\x0b' || c = '\x0c'

/-- Python `s.lstrip()` (no argument: strips all whitespace). -/
def pyLstrip (s : List Char) : List Char :=
  s.dropWhile isPySpace

/-- Python `s.rstrip()` (no argument: strips all whitespace). -/
def pyRstrip (s : List Char) : List Char :=
  (s.reverse.dropWhile isPySpace).reverse

/-- Python `s.strip()` (no argument: strips all whitespace at both ends). -/
def pyStrip (s : List Char) : List Char :=
  pyRstrip (pyLstrip s)

/-- Python `s.lstrip(" ")`: strips only space characters on the left. -/
def pyLstripSpaces (s : List Char) : List Char :=
  s.dropWhile (fun c => c = ' ')

/-- The double-quote character, kept out of character-literal syntax. -/
def quotChar : Char := Char.ofNat 34

/-- The apostrophe character, kept out of character-literal syntax. -/
def aposChar : Char := Char.ofNat 39

/-- Collapses every maximal run of `p`-characters to the single character
`rep`; `inRun` records whether the previous character belonged to a run.
This is the effect of the regex substitution `p+ -> rep`. -/
def collapseRunsGo (p : Char → Bool) (rep : Char) (inRun : Bool) :
    List Char → List Char
  | [] => []
  | c :: rest =>
    if p c then
      if inRun then collapseRunsGo p rep true rest
      else rep :: collapseRunsGo p rep true rest
    else c :: collapseRunsGo p rep false rest

/-- `StringManipulation.reduce_redundant_whitespace`: the regex substitution
`\s+` -> `" "` — every maximal run of whitespace becomes one space. -/
def reduce_redundant_whitespace (s : List Char) : List Char :=
  collapseRunsGo isPySpace ' ' false s

/-- `StringManipulation.remove_empty_lines`: the regex substitution
`\n+` -> `"\n"` — every maximal run of newlines becomes one newline. -/
def remove_empty_lines (s : List Char) : List Char :=
  collapseRunsGo (fun c => c = '\n') '\n' false s

/-- Right-to-left state machine for the regex substitution `\s+\n -> "\n"`:
on the reversed string, a newline is kept and switches to skipping mode, in
which all directly following (reversed) whitespace — i.e. the whitespace
that preceded the newline in the original string — is dropped. -/
def rmWsEolRevGo (skip : Bool) : List Char → List Char
  | [] => []
  | c :: rest =>
    if skip && isPySpace c then rmWsEolRevGo true rest
    else if c = '\n' then '\n' :: rmWsEolRevGo true rest
    else c :: rmWsEolRevGo false rest

/-- `StringManipulation.remove_whitespace_before_eol`: the regex
substitution `\s+\n` -> `"\n"` — whitespace immediately preceding a newline
is removed (the greedy leftmost match consumes, inside a whitespace run that
contains a newline, everything up to the run's last newline). -/
def remove_whitespace_before_eol (s : List Char) : List Char :=
  (rmWsEolRevGo false s.reverse).reverse

/-- Python `str.replace(old, new)` specialised to a one-character pattern,
the only shape `escape_xml_entities` uses. -/
def pyReplaceChar (pat : Char) (rep : List Char) : List Char → List Char
  | [] => []
  | c :: rest =>
    if c = pat then rep ++ pyReplaceChar pat rep rest
    else c :: pyReplaceChar pat rep rest

def ampEsc : List Char := ['&', 'a', 'm', 'p', ';']

def ltEsc : List Char := ['&', 'l', 't', ';']

def gtEsc : List Char := ['&', 'g', 't', ';']

def quotEsc : List Char := ['&', 'q', 'u', 'o', 't', ';']

def aposEsc : List Char := ['&', 'a', 'p', 'o', 's', ';']

/-- `StringManipulation.escape_xml_entities`: sequential guarded
`str.replace` calls, `&` first, then `<`, `>`, the double quote and the
apostrophe. -/
def escape_xml_entities (s : List Char) : List Char :=
  let r1 := if '&' ∈ s then pyReplaceChar '&' ampEsc s else s
  let r2 := if '<' ∈ r1 then pyReplaceChar '<' ltEsc r1 else r1
  let r3 := if '>' ∈ r2 then pyReplaceChar '>' gtEsc r2 else r2
  let r4 := if quotChar ∈ r3 then pyReplaceChar quotChar quotEsc r3 else r3
  let r5 := if aposChar ∈ r4 then pyReplaceChar aposChar aposEsc r4 else r4
  r5

/-- Applies a character-to-string substitution to every character. -/
def mapEsc (f : Char → List Char) : List Char → List Char
  | [] => []
  | c :: rest => f c ++ mapEsc f rest

/-- The per-character effect of the full escaping chain. -/
def escChar (c : Char) : List Char :=
  if c = '&' then ampEsc
  else if c = '<' then ltEsc
  else if c = '>' then gtEsc
  else if c = quotChar then quotEsc
  else if c = aposChar then aposEsc
  else [c]

/-- Per-character substitution used in the stepwise description of
`escape_xml_entities`. -/
def oneEsc (pat : Char) (rep : List Char) (c : Char) : List Char :=
  if c = pat then rep else [c]

/-- Recognises one of the five predefined entity bodies right after an
ampersand, returning the decoded character and the remaining input. -/
def entDec (rest : List Char) : Option (Char × List Char) :=
  if rest.take 4 = ['a', 'm', 'p', ';'] then some ('&', rest.drop 4)
  else if rest.take 3 = ['l', 't', ';'] then some ('<', rest.drop 3)
  else if rest.take 3 = ['g', 't', ';'] then some ('>', rest.drop 3)
  else if rest.take 5 = ['q', 'u', 'o', 't', ';'] then
    some (quotChar, rest.drop 5)
  else if rest.take 5 = ['a', 'p', 'o', 's', ';'] then
    some (aposChar, rest.drop 5)
  else none

/-- Fueled worker for `unescape_xml_entities`; one unit of fuel is spent per
emitted character, so fuel equal to the input length always suffices. -/
def unescapeGo : Nat → List Char → List Char
  | _, [] => []
  | fuel + 1, c :: rest =>
    if c = '&' then
      match entDec rest with
      | some (d, r) => d :: unescapeGo fuel r
      | none => '&' :: unescapeGo fuel rest
    else c :: unescapeGo fuel rest
  | 0, s => s

/-- Modelled from the spec: "the emitted value, when re-parsed, yields the
original string back" — re-parsing resolves the five predefined XML
entities; an `&` that does not start a recognised entity reference is kept
verbatim.  (The repository delegates re-parsing to Python's
`xml.dom.minidom`, which is not part of `src/`.) -/
def unescape_xml_entities (s : List Char) : List Char :=
  unescapeGo s.length s

/-- `options.Options` exactly as defined in `options.py`: a frozen
dataclass with five fields (`indentation` 4, `max_line_length` 80,
`inline_elements` empty tuple, `comments_have_trailing_spaces` true,
`comments_start_new_lines` true).  Python's `tuple[str, ...]` is modelled
as `List (List Char)`; the `__post_init__` element-type validation is a
runtime type check that the typed embedding renders vacuous.  Note:
`formatter.py` and the repository's test suite reference five further
option fields that this dataclass does not define. -/
structure Options where
  indentation : Int := 4
  max_line_length : Int := 80
  inline_elements : List (List Char) := []
  comments_have_trailing_spaces : Bool := true
  comments_start_new_lines : Bool := true
deriving Repr, DecidableEq

/-- The option record as consumed by `formatter.py`.  The first five fields
mirror `options.py`; the remaining five are read by the formatter
(`semicontainer_elements`, `sorted_attributes`,
`doctype_declaration_starts_new_line`,
`doctype_subset_parts_start_new_lines`,
`processing_instructions_start_new_lines`) but are missing from the
`Options` dataclass in `src/`.  Modelled from the spec for those five:
set-valued fields default to the empty set and boolean fields default to
true.  `max_line_length` is modelled as `Nat`: the spec constrains it to a
line length, and Python's negative-bound slicing semantics are outside the
spec. -/
structure FmtOptions where
  indentation : Int := 4
  max_line_length : Nat := 80
  inline_elements : List (List Char) := []
  semicontainer_elements : List (List Char) := []
  sorted_attributes : Bool := true
  comments_have_trailing_spaces : Bool := true
  comments_start_new_lines : Bool := true
  doctype_declaration_starts_new_line : Bool := true
  doctype_subset_parts_start_new_lines : Bool := true
  processing_instructions_start_new_lines : Bool := true
deriving Repr, DecidableEq

/-- The node kinds reachable in a parsed `xml.dom.minidom` document, below
the `Document` itself.  `text` covers both `Text` and `CDATASection`
(`CDATASection` is a subclass of `Text` distinguished only by `nodeType`,
modelled by the `isCDATA` flag).  Attributes are carried inline on their
element (name, value pairs in document order), matching how the formatter
reaches them (`element.attributes`). -/
inductive XNode where
  | element (tagName : List Char) (attributes : List (List Char × List Char))
      (children : List XNode)
  | text (data : List Char) (isCDATA : Bool)
  | comment (data : List Char)
  | procInst (target : List Char) (data : List Char)
  | doctype (name : List Char) (publicId : Option (List Char))
      (systemId : Option (List Char)) (internalSubset : Option (List Char))
deriving Repr

/-- A parsed `Document`: the XML-declaration data and the top-level
children (document type, root element, top-level comments and processing
instructions). -/
structure XDocument where
  version : Option (List Char)
  encoding : Option (List Char)
  standalone : Option Bool
  children : List XNode
deriving Repr

/-- The formatter's mutable state: `self._indentation_level` and
`self._result`. -/
structure FmtState where
  indentation_level : Int
  result : List (List Char)
deriving Repr, DecidableEq

/-- `minidom.Node.hasChildNodes()`. -/
def hasChildNodes : XNode → Bool
  | .element _ _ children => !children.isEmpty
  | _ => false

/-- `_is_empty_element`: "An element is said to be empty if it has no child
nodes" — `not element.hasChildNodes()`. -/
def is_empty_element (e : XNode) : Bool :=
  !(hasChildNodes e)

/-- `_is_whitespace_only_text`: `text.data.strip() == ""` (defined in the
source, but never called by the formatter). -/
def is_whitespace_only_text (data : List Char) : Bool :=
  (pyStrip data).isEmpty

/-- The emptiness rule as the spec words it (refinement comparison for
claim C1): no children, or exactly one child that is a Text or CDATA node
whose data, after stripping whitespace, is empty. -/
def specIsEmpty : XNode → Bool
  | .element _ _ [] => true
  | .element _ _ [.text data _] => (pyStrip data).isEmpty
  | _ => false

/-- `_is_inline_element`: the tag name is a member of
`options.inline_elements` (the source's `is not None` guard is vacuous for
a tuple-typed field). -/
def is_inline_element (opts : FmtOptions) (tagName : List Char) : Bool :=
  opts.inline_elements.contains tagName

/-- `_is_semicontainer_element`: the tag name is a member of
`options.semicontainer_elements`. -/
def is_semicontainer_element (opts : FmtOptions) (tagName : List Char) : Bool :=
  opts.semicontainer_elements.contains tagName

/-- Whether a node is an `Element` (`isinstance(node, Element)`). -/
def isElementNode : XNode → Bool
  | .element .. => true
  | _ => false

/-- Whether a node is a `Text` (`isinstance(node, Text)`); `CDATASection`
is a subclass of `Text`, so both kinds qualify. -/
def isTextNode : XNode → Bool
  | .text .. => true
  | _ => false

/-- The tag name of an element node (only ever applied to elements). -/
def tagOf : XNode → List Char
  | .element t _ _ => t
  | _ => []

/-- `needs_indent_for_first_child`: "Indentation is required if the child
is not the first child of a semicontainer or inline element."  In the
embedding the sibling/parent links are supplied by the iteration context:
`prev` is `child.previousSibling`, `parentTag` is `some tagName` when
`child.parentNode` is an `Element` and `none` otherwise. -/
def needs_indent_for_first_child (opts : FmtOptions)
    (parentTag : Option (List Char)) (prev : Option XNode) : Bool :=
  !(prev.isNone &&
    (match parentTag with
     | some t => is_semicontainer_element opts t || is_inline_element opts t
     | none => false))

/-- `needs_indent_after_special_sibling`: "Indentation is required unless
the child follows a semicontainer or inline element." -/
def needs_indent_after_special_sibling (opts : FmtOptions)
    (prev : Option XNode) : Bool :=
  !(match prev with
    | some (.element t _ _) =>
        is_semicontainer_element opts t || is_inline_element opts t
    | _ => false)

/-- `needs_indent_for_text`: "Indentation is required unless the child is
an inline element or text following another text." -/
def needs_indent_for_text (opts : FmtOptions) (prev : Option XNode)
    (child : XNode) : Bool :=
  !(prev.isSome &&
    ((match child with
      | .element t _ _ => is_inline_element opts t
      | _ => false) ||
      isTextNode child) &&
    (match prev with
     | some (.text ..) => true
     | _ => false))

/-- `_needs_indentation`: the conjunction of the three sub-conditions. -/
def needs_indentation (opts : FmtOptions) (parentTag : Option (List Char))
    (prev : Option XNode) (child : XNode) : Bool :=
  needs_indent_for_first_child opts parentTag prev &&
  needs_indent_after_special_sibling opts prev &&
  needs_indent_for_text opts prev child

/-- `_indentation(count)`: `count * " "`, raising `ValueError` on a
negative count. -/
def indentation (count : Int) : Except String (List Char) :=
  if count < 0 then .error "Indentation may not be negative."
  else .ok (List.replicate count.toNat ' ')

/-- `_calculate_indentation`: `self._indentation_level *
self.options.indentation`. -/
def calculate_indentation (opts : FmtOptions) (level : Int) : Int :=
  level * opts.indentation

/-- `_decrease_indentation_level`: raises when the level is zero, otherwise
decrements it. -/
def decrease_indentation_level (level : Int) : Except String Int :=
  if level = 0 then .error "Indentation level cannot be lower than zero"
  else .ok (level - 1)

/-- `_increase_indentation_level`. -/
def increase_indentation_level (level : Int) : Int :=
  level + 1

/-- The two operations that touch `self._indentation_level`. -/
inductive IndentOp where
  | inc
  | dec
deriving Repr, DecidableEq

/-- Applies one indentation-level operation. -/
def applyIndentOp : IndentOp → Int → Except String Int
  | .inc, l => .ok (increase_indentation_level l)
  | .dec, l => decrease_indentation_level l

/-- All indentation levels reached while running a sequence of
increase/decrease operations from a start level (the run stops at the
first raising operation). -/
def levelTrace : List IndentOp → Int → List Int
  | [], l => [l]
  | op :: ops, l =>
    l ::
      (match applyIndentOp op l with
       | .ok l2 => levelTrace ops l2
       | .error _ => [])

/-- Python `line.rfind(" ", 0, bound)` as an `Option`: the largest index
`i < bound` (and `i < line.length`) holding a space. -/
def rfindSpaceBefore (line : List Char) : Nat → Option Nat
  | 0 => none
  | b + 1 =>
    if h : b < line.length then
      if line.get ⟨b, h⟩ = ' ' then some b else rfindSpaceBefore line b
    else rfindSpaceBefore line b

/-- Scans a list left to right reporting the index (offset by `i`) of the
first space. -/
def findSpaceIdx : List Char → Nat → Option Nat
  | [], _ => none
  | c :: rest, i => if c = ' ' then some i else findSpaceIdx rest (i + 1)

/-- Python `line.find(" ", start)` as an `Option`: the smallest index
`i ≥ start` (and `i < line.length`) holding a space. -/
def findSpaceFrom (line : List Char) (start : Nat) : Option Nat :=
  findSpaceIdx (line.drop start) start

/-- `_find_split_position`: prefer the last space before
`max_line_length`, otherwise the first one after it, otherwise `None`. -/
def find_split_position (maxLen : Nat) (line : List Char) : Option Nat :=
  match rfindSpaceBefore line maxLen with
  | some i => some i
  | none => findSpaceFrom line maxLen

/-- The inner while loop of `_split_too_long_lines` for one line.
`indent` is the run of leading spaces of the original line.  One unit of
fuel is spent per iteration; since an iteration that continues strictly
shortens `line`, fuel `line.length + 1` always suffices (theorem
`splitLineGo_fuel_sufficient`). -/
def splitLineGo (maxLen : Nat) (indent : List Char) :
    Nat → List Char → List (List Char)
  | 0, line => [line]
  | fuel + 1, line =>
    if line.length > maxLen then
      match find_split_position maxLen line with
      | none => [line]
      | some splitAt =>
        let current_line := pyRstrip (line.take splitAt)
        let line2 := indent ++ pyLstrip (line.drop (splitAt + 1))
        if line2.length < line.length then
          (current_line ++ ['\n']) :: splitLineGo maxLen indent fuel line2
        else [line2]
    else [line]

/-- `_split_too_long_lines`: splits each overlong line at the position
`_find_split_position` chooses, re-prefixing continuation lines with the
original line's leading-space indentation. -/
def split_too_long_lines (maxLen : Nat) : List (List Char) → List (List Char)
  | [] => []
  | line :: rest =>
    let indent := line.takeWhile (fun c => c = ' ')
    splitLineGo maxLen indent (line.length + 1) line ++
      split_too_long_lines maxLen rest

/-- Worker for `splitlinesKeepends`; `cur` is the current line, reversed. -/
def splitlinesGo (cur : List Char) : List Char → List (List Char)
  | [] => if cur.isEmpty then [] else [cur.reverse]
  | c :: rest =>
    if c = '\n' then (cur.reverse ++ ['\n']) :: splitlinesGo [] rest
    else splitlinesGo (c :: cur) rest

/-- Python `str.splitlines(keepends=True)` restricted to `'\n'` line
terminators — the only terminator the formatter's buffer contains. -/
def splitlinesKeepends (s : List Char) : List (List Char) :=
  splitlinesGo [] s

/-- `_postprocess`: join the fragments, collapse blank lines, drop
whitespace before newlines, strip the whole text, split it into lines
(keeping the ends) and split the overlong lines. -/
def postprocess (maxLen : Nat) (result : List (List Char)) :
    List (List Char) :=
  let s := result.flatten
  let s := remove_empty_lines s
  let s := remove_whitespace_before_eol s
  let s := pyStrip s
  let lines := splitlinesKeepends s
  split_too_long_lines maxLen lines

/-- `self._result.append(...)`. -/
def appendFrag (st : FmtState) (frag : List Char) : FmtState :=
  { st with result := st.result ++ [frag] }

/-- `_result_endswith_linebreak`: `self._result[-1].endswith("\n")`;
indexing an empty buffer raises `IndexError`. -/
def result_endswith_linebreak (st : FmtState) : Except String Bool :=
  match st.result.getLast? with
  | none => .error "IndexError: list index out of range"
  | some s => .ok (s.getLast? == some '\n')

/-- `_result_endswith_whitespace`:
`self._result[-1].endswith(("\n", " ", "\t", "\r"))`. -/
def result_endswith_whitespace (st : FmtState) : Except String Bool :=
  match st.result.getLast? with
  | none => .error "IndexError: list index out of range"
  | some s =>
    .ok (match s.getLast? with
         | some c => c = '\n' || c = ' ' || c = '\t' || c = '\r'
         | none => false)

/-- `_add_indentation`. -/
def add_indentation (opts : FmtOptions) (st : FmtState) :
    Except String FmtState := do
  let ind ← indentation (calculate_indentation opts st.indentation_level)
  .ok (appendFrag st ind)

/-- `_add_linebreak`. -/
def add_linebreak (st : FmtState) : FmtState :=
  appendFrag st ['\n']

/-- `_open_start_tag`. -/
def open_start_tag (tagName : List Char) (st : FmtState) : FmtState :=
  appendFrag st ("<".data ++ tagName)

/-- `_close_start_tag`. -/
def close_start_tag (st : FmtState) : FmtState :=
  appendFrag st ">".data

/-- `_close_empty_tag`. -/
def close_empty_tag (st : FmtState) : FmtState :=
  appendFrag st "/>".data

/-- `_process_element_end_tag`. -/
def process_element_end_tag (tagName : List Char) (st : FmtState) :
    FmtState :=
  appendFrag st ("</".data ++ tagName ++ ">".data)

/-- `_process_attribute_node`: appends ` name="value"` with the value
entity-escaped. -/
def process_attribute_node (name value : List Char) (st : FmtState) :
    FmtState :=
  appendFrag st
    (" ".data ++ name ++ "=".data ++ [quotChar] ++
      escape_xml_entities value ++ [quotChar])

/-- Python string `<` (lexicographic by code point), used as the key
comparison of `attributes.sort(key=lambda attr: attr.name)`. -/
def lexLt : List Char → List Char → Bool
  | [], [] => false
  | [], _ :: _ => true
  | _ :: _, [] => false
  | a :: as, b :: bs => if a = b then lexLt as bs else decide (a < b)

/-- Stable insertion of an attribute into a name-sorted list: placed before
the first entry with a key not smaller than its own. -/
def insertByName (x : List Char × List Char) :
    List (List Char × List Char) → List (List Char × List Char)
  | [] => [x]
  | y :: ys => if lexLt y.1 x.1 then y :: insertByName x ys else x :: y :: ys

/-- Stable sort by attribute name (Python `list.sort` is stable). -/
def sortAttributesByName :
    List (List Char × List Char) → List (List Char × List Char)
  | [] => []
  | x :: xs => insertByName x (sortAttributesByName xs)

/-- `_process_attributes`: when the element has attributes, collect them,
sort them by name if `sorted_attributes` is set, and process each in turn
(the source routes each `Attr` through `_process_node`, which dispatches
straight back to `_process_attribute_node`). -/
def process_attributes (opts : FmtOptions)
    (attrs : List (List Char × List Char)) (st : FmtState) : FmtState :=
  if attrs.isEmpty then st
  else
    let sorted := if opts.sorted_attributes then sortAttributesByName attrs
      else attrs
    sorted.foldl (fun acc a => process_attribute_node a.1 a.2 acc) st

/-- `_process_text`: collapse whitespace, left-strip if the buffer already
ends in whitespace, escape entities, append. -/
def process_text (data : List Char) (st : FmtState) :
    Except String FmtState := do
  let d := reduce_redundant_whitespace data
  let ws ← result_endswith_whitespace st
  let d := if ws then pyLstrip d else d
  let d := escape_xml_entities d
  .ok (appendFrag st d)

/-- `_process_cdata_section`: collapse and strip whitespace, wrap in CDATA
delimiters (never entity-escaped). -/
def process_cdata_section (data : List Char) (st : FmtState) : FmtState :=
  appendFrag st
    ("<![CDATA[".data ++ pyStrip (reduce_redundant_whitespace data) ++
      "]]>".data)

/-- `_process_text_node`: dispatch on `nodeType` between plain text and
CDATA. -/
def process_text_node (data : List Char) (isCDATA : Bool) (st : FmtState) :
    Except String FmtState :=
  if !isCDATA then process_text data st
  else .ok (process_cdata_section data st)

/-- `_normalize_processing_instruction_data`. -/
def normalize_processing_instruction_data (data : List Char) : List Char :=
  " ".data ++ pyStrip (reduce_redundant_whitespace data)

/-- `_set_processing_instruction_newline`. -/
def set_processing_instruction_newline (opts : FmtOptions) : List Char :=
  if opts.processing_instructions_start_new_lines then ['\n'] else []

/-- `_process_processing_instruction_node`. -/
def process_processing_instruction_node (opts : FmtOptions)
    (target data : List Char) (st : FmtState) : Except String FmtState := do
  let newline := set_processing_instruction_newline opts
  let ind ← indentation (calculate_indentation opts st.indentation_level)
  let d := normalize_processing_instruction_data data
  .ok (appendFrag st
    (newline ++ ind ++ "<?".data ++ target ++ d ++ "?>".data ++ newline))

/-- `_normalize_comment_data`. -/
def normalize_comment_data (data : List Char) : List Char :=
  pyStrip (reduce_redundant_whitespace data)

/-- `_set_comment_newline`. -/
def set_comment_newline (opts : FmtOptions) : List Char :=
  if opts.comments_start_new_lines then ['\n'] else []

/-- `_set_comment_start`. -/
def set_comment_start (opts : FmtOptions) : List Char :=
  if opts.comments_have_trailing_spaces then "<!-- ".data else "<!--".data

/-- `_set_comment_end`. -/
def set_comment_end (opts : FmtOptions) : List Char :=
  if opts.comments_have_trailing_spaces then " -->".data else "-->".data

/-- `_process_comment_node`. -/
def process_comment_node (opts : FmtOptions) (data : List Char)
    (st : FmtState) : Except String FmtState := do
  let newline := set_comment_newline opts
  let ind ← indentation (calculate_indentation opts st.indentation_level)
  .ok (appendFrag st
    (newline ++ ind ++ set_comment_start opts ++ normalize_comment_data data
      ++ set_comment_end opts ++ newline))

/-- `_construct_external_id`.  Note the faithful f-string artefact: with a
public id present and no system id, Python renders the literal text
`None`. -/
def construct_external_id (publicId systemId : Option (List Char)) :
    List Char :=
  match publicId with
  | some pub =>
    " PUBLIC ".data ++ [quotChar] ++ pub ++ [quotChar] ++ " ".data ++
      [quotChar] ++ systemId.getD "None".data ++ [quotChar]
  | none =>
    match systemId with
    | some sys => " SYSTEM ".data ++ [quotChar] ++ sys ++ [quotChar]
    | none => []

/-- `s.startswith(p)` on character lists. -/
def startsWith (p s : List Char) : Bool :=
  s.take p.length == p

/-- Index of the first occurrence of `needle` in the haystack. -/
def findSub (needle : List Char) : List Char → Option Nat
  | [] => if needle.isEmpty then some 0 else none
  | c :: rest =>
    if startsWith needle (c :: rest) then some 0
    else (findSub needle rest).map (· + 1)

/-- One alternative `kw[^>]*?>` of the doctype-subset scanner: the literal
keyword, then lazily up to the first `>`. -/
def matchDeclToken (kw : List Char) (s : List Char) :
    Option (List Char × List Char) :=
  if startsWith kw s then
    match (s.drop kw.length).findIdx? (fun c => c = '>') with
    | some j =>
      let len := kw.length + j + 1
      some (s.take len, s.drop len)
    | none => none
  else none

/-- One alternative `opener.*?closer` (DOTALL) of the doctype-subset
scanner. -/
def matchDelimToken (opener closer : List Char) (s : List Char) :
    Option (List Char × List Char) :=
  if startsWith opener s then
    match findSub closer (s.drop opener.length) with
    | some j =>
      let len := opener.length + j + closer.length
      some (s.take len, s.drop len)
    | none => none
  else none

/-- The regex class `\w` (ASCII). -/
def isWordChar (c : Char) : Bool :=
  ('a' ≤ c && c ≤ 'z') || ('A' ≤ c && c ≤ 'Z') ||
    ('0' ≤ c && c ≤ '9') || c = '_'

/-- The alternative `%\w+;` of the doctype-subset scanner. -/
def matchPERef : List Char → Option (List Char × List Char)
  | '%' :: rest =>
    let w := rest.takeWhile isWordChar
    if w.isEmpty then none
    else
      match rest.drop w.length with
      | ';' :: r2 => some ('%' :: (w ++ [';']), r2)
      | _ => none
  | _ => none

/-- The combined alternation of `_construct_internal_subset`'s `patterns`,
tried in the source's order. -/
def matchSubsetToken (s : List Char) : Option (List Char × List Char) :=
  (matchDeclToken "<!ELEMENT".data s).orElse fun _ =>
  (matchDeclToken "<!ENTITY".data s).orElse fun _ =>
  (matchDeclToken "<!ATTLIST".data s).orElse fun _ =>
  (matchDeclToken "<!NOTATION".data s).orElse fun _ =>
  (matchDelimToken "<!--".data "-->".data s).orElse fun _ =>
  (matchDelimToken "<?".data "?>".data s).orElse fun _ =>
  matchPERef s

/-- `re.findall` of the combined pattern: scan left to right, consuming a
token where one matches and advancing one character where none does.  Each
step consumes at least one character, so fuel equal to the input length
suffices. -/
def doctypeSubsetPartsGo : Nat → List Char → List (List Char)
  | 0, _ => []
  | _, [] => []
  | fuel + 1, c :: rest =>
    match matchSubsetToken (c :: rest) with
    | some (tok, r2) => tok :: doctypeSubsetPartsGo fuel r2
    | none => doctypeSubsetPartsGo fuel rest

/-- The tokens of the doctype internal subset, in order. -/
def doctypeSubsetParts (s : List Char) : List (List Char) :=
  doctypeSubsetPartsGo s.length s

/-- Python `"\n".join(...)`. -/
def joinNl : List (List Char) → List Char
  | [] => []
  | [x] => x
  | x :: y :: xs => x ++ '\n' :: joinNl (y :: xs)

/-- `_construct_internal_subset`: empty for a missing or empty subset;
verbatim `[subset]` when subset parts do not start new lines; otherwise the
recognised tokens each on an own line, indented one level deeper (the
method increments the level, renders the indentation, and decrements the
level again). -/
def construct_internal_subset (opts : FmtOptions)
    (subset : Option (List Char)) (level : Int) :
    Except String (List Char × Int) :=
  match subset with
  | none => .ok ([], level)
  | some sub =>
    if sub.isEmpty then .ok ([], level)
    else if !opts.doctype_subset_parts_start_new_lines then
      .ok (" [".data ++ sub ++ "]".data, level)
    else do
      let level1 := increase_indentation_level level
      let ind ← indentation (calculate_indentation opts level1)
      let level2 ← decrease_indentation_level level1
      let parts := doctypeSubsetParts sub
      let formatted := parts.map (fun p => ind ++ pyStrip p)
      .ok (" [\n".data ++ joinNl formatted ++ "\n]".data, level2)

/-- `_set_doctype_newline`. -/
def set_doctype_newline (opts : FmtOptions) : List Char :=
  if opts.doctype_declaration_starts_new_line then ['\n'] else []

/-- `_process_document_type_node`. -/
def process_document_type_node (opts : FmtOptions) (name : List Char)
    (publicId systemId internalSubset : Option (List Char))
    (st : FmtState) : Except String FmtState := do
  let newline := set_doctype_newline opts
  let external_id := construct_external_id publicId systemId
  let (subset, level2) ←
    construct_internal_subset opts internalSubset st.indentation_level
  let st := { st with indentation_level := level2 }
  .ok (appendFrag st
    (newline ++ "<!DOCTYPE ".data ++ name ++ external_id ++ subset ++
      ">".data ++ newline))

/-- `_set_version` (default `"1.0"`). -/
def set_version (doc : XDocument) : List Char :=
  " version=".data ++ [quotChar] ++ doc.version.getD "1.0".data ++ [quotChar]

/-- `_set_encoding` (default `"UTF-8"`). -/
def set_encoding (doc : XDocument) : List Char :=
  " encoding=".data ++ [quotChar] ++ doc.encoding.getD "UTF-8".data ++
    [quotChar]

/-- `_set_standalone` (absent: empty; else yes/no). -/
def set_standalone (doc : XDocument) : List Char :=
  match doc.standalone with
  | none => []
  | some true => " standalone=".data ++ [quotChar] ++ "yes".data ++ [quotChar]
  | some false => " standalone=".data ++ [quotChar] ++ "no".data ++ [quotChar]

/-- `_process_xml_declaration`. -/
def process_xml_declaration (doc : XDocument) (st : FmtState) : FmtState :=
  appendFrag st
    ("<?xml".data ++ set_version doc ++ set_encoding doc ++
      set_standalone doc ++ "?>\n".data)

/-- `_process_all_child_nodes`, parametric in the recursive node processor
(the `self._process_node` call of the loop body): iterates the children
tracking the previous sibling, and indents a child exactly when
`_needs_indentation` holds. -/
def process_all_child_nodes_with
    (procNode : XNode → FmtState → Except String FmtState)
    (opts : FmtOptions) (parentTag : Option (List Char)) :
    Option XNode → List XNode → FmtState → Except String FmtState
  | _, [], st => .ok st
  | prev, child :: rest, st =>
    (if needs_indentation opts parentTag prev child then
      add_indentation opts st
    else .ok st) >>= fun st2 =>
    procNode child st2 >>= fun st3 =>
    process_all_child_nodes_with procNode opts parentTag (some child) rest st3

/-- `_process_empty_inline_element`. -/
def process_empty_inline_element (opts : FmtOptions) (t : List Char)
    (attrs : List (List Char × List Char)) (st : FmtState) : FmtState :=
  close_empty_tag (process_attributes opts attrs (open_start_tag t st))

/-- `_process_nonempty_inline_element`. -/
def process_nonempty_inline_element
    (procNode : XNode → FmtState → Except String FmtState)
    (opts : FmtOptions) (t : List Char)
    (attrs : List (List Char × List Char)) (children : List XNode)
    (st : FmtState) : Except String FmtState :=
  let st1 := close_start_tag (process_attributes opts attrs
    (open_start_tag t st))
  let st2 := { st1 with
    indentation_level := increase_indentation_level st1.indentation_level }
  process_all_child_nodes_with procNode opts (some t) none children st2 >>=
    fun st3 =>
  result_endswith_linebreak st3 >>= fun lb =>
  (if lb then add_indentation opts st3 else .ok st3) >>= fun st4 =>
  decrease_indentation_level st4.indentation_level >>= fun lvl =>
  .ok (process_element_end_tag t { st4 with indentation_level := lvl })

/-- `_process_empty_container_element`. -/
def process_empty_container_element (opts : FmtOptions) (t : List Char)
    (attrs : List (List Char × List Char)) (st : FmtState) :
    Except String FmtState := do
  let st := add_linebreak st
  let st ← add_indentation opts st
  let st := open_start_tag t st
  let st := process_attributes opts attrs st
  let st := close_empty_tag st
  .ok (add_linebreak st)

/-- `_process_nonempty_container_element`. -/
def process_nonempty_container_element
    (procNode : XNode → FmtState → Except String FmtState)
    (opts : FmtOptions) (t : List Char)
    (attrs : List (List Char × List Char)) (children : List XNode)
    (st : FmtState) : Except String FmtState := do
  let st := add_linebreak st
  let st ← add_indentation opts st
  let st := open_start_tag t st
  let st := process_attributes opts attrs st
  let st := close_start_tag st
  let st := { st with
    indentation_level := increase_indentation_level st.indentation_level }
  let st := add_linebreak st
  let st ← process_all_child_nodes_with procNode opts (some t) none children st
  let lvl ← decrease_indentation_level st.indentation_level
  let st := { st with indentation_level := lvl }
  let st := add_linebreak st
  let st ← add_indentation opts st
  let st := process_element_end_tag t st
  .ok (add_linebreak st)

/-- `_process_empty_semicontainer_element`. -/
def process_empty_semicontainer_element (opts : FmtOptions) (t : List Char)
    (attrs : List (List Char × List Char)) (st : FmtState) :
    Except String FmtState := do
  let st := add_linebreak st
  let st ← add_indentation opts st
  let st := open_start_tag t st
  let st := process_attributes opts attrs st
  .ok (close_empty_tag st)

/-- `_process_nonempty_semicontainer_element`. -/
def process_nonempty_semicontainer_element
    (procNode : XNode → FmtState → Except String FmtState)
    (opts : FmtOptions) (t : List Char)
    (attrs : List (List Char × List Char)) (children : List XNode)
    (st : FmtState) : Except String FmtState :=
  add_indentation opts (add_linebreak st) >>= fun stI =>
  let st1 := close_start_tag (process_attributes opts attrs
    (open_start_tag t stI))
  let st2 := { st1 with
    indentation_level := increase_indentation_level st1.indentation_level }
  process_all_child_nodes_with procNode opts (some t) none children st2 >>=
    fun st3 =>
  result_endswith_linebreak st3 >>= fun lb =>
  (if lb then add_indentation opts st3 else .ok st3) >>= fun st4 =>
  decrease_indentation_level st4.indentation_level >>= fun lvl =>
  .ok (process_element_end_tag t { st4 with indentation_level := lvl })

/-- The three element layout categories. -/
inductive ElementGroup where
  | inline
  | semicontainer
  | container
deriving Repr, DecidableEq

/-- The group computation of `_process_element_node`: inline membership is
tested first, then semicontainer membership, else container. -/
def element_group (opts : FmtOptions) (t : List Char) : ElementGroup :=
  if is_inline_element opts t then .inline
  else if is_semicontainer_element opts t then .semicontainer
  else .container

/-- `_process_element_node`: classify into one of the six
(category, emptiness) combinations and dispatch through the method map. -/
def process_element_node_with
    (procNode : XNode → FmtState → Except String FmtState)
    (opts : FmtOptions) (t : List Char)
    (attrs : List (List Char × List Char)) (children : List XNode)
    (st : FmtState) : Except String FmtState :=
  let empty := is_empty_element (.element t attrs children)
  match element_group opts t, empty with
  | .inline, true => .ok (process_empty_inline_element opts t attrs st)
  | .inline, false =>
      process_nonempty_inline_element procNode opts t attrs children st
  | .semicontainer, true =>
      process_empty_semicontainer_element opts t attrs st
  | .semicontainer, false =>
      process_nonempty_semicontainer_element procNode opts t attrs children st
  | .container, true => process_empty_container_element opts t attrs st
  | .container, false =>
      process_nonempty_container_element procNode opts t attrs children st

/-- `_process_node` (fueled: one unit of fuel per tree level; `sizeOf`
bounds the depth, and exhausted fuel mirrors Python's `RecursionError`).
The dispatcher's remaining source cases — `Attr` (reached only through
`_process_attributes`, inlined there) and `Document` (handled by
`process_document_node`, since a `Document` never occurs among child
nodes) — have no `XNode` constructor. -/
def process_node_go (opts : FmtOptions) :
    Nat → XNode → FmtState → Except String FmtState
  | 0, _, _ => .error "RecursionError"
  | fuel + 1, n, st =>
    match n with
    | .element t attrs children =>
        process_element_node_with (process_node_go opts fuel) opts t attrs
          children st
    | .text data isCDATA => process_text_node data isCDATA st
    | .comment data => process_comment_node opts data st
    | .procInst target data =>
        process_processing_instruction_node opts target data st
    | .doctype name pub sys sub =>
        process_document_type_node opts name pub sys sub st

mutual

/-- The number of nodes of a tree, an executable depth bound for the
fueled `process_node_go`. -/
def nodeSize : XNode → Nat
  | .element _ _ children => 1 + nodeListSize children
  | _ => 1

/-- The number of nodes of a forest. -/
def nodeListSize : List XNode → Nat
  | [] => 0
  | n :: rest => nodeSize n + nodeListSize rest

end

/-- `_process_node` with its depth bound. -/
def process_node (opts : FmtOptions) (n : XNode) (st : FmtState) :
    Except String FmtState :=
  process_node_go opts (nodeSize n) n st

/-- `_process_document_node`: the XML declaration, then all children (the
parent of a top-level child is the `Document`, not an `Element`). -/
def process_document_node (opts : FmtOptions) (doc : XDocument)
    (st : FmtState) : Except String FmtState := do
  let st := process_xml_declaration doc st
  process_all_child_nodes_with (process_node opts) opts none none
    doc.children st

/-- The formatting pipeline of `XMLCustomFormatter.__init__` after parsing:
start at indentation level 0 with an empty buffer, process the document,
postprocess the buffer.  Parsing and file output sit outside the formatting
core. -/
def runFormatter (opts : FmtOptions) (doc : XDocument) :
    Except String FmtState := do
  let st0 : FmtState := { indentation_level := 0, result := [] }
  let st ← process_document_node opts doc st0
  .ok { st with result := postprocess opts.max_line_length st.result }

/-- A state transformer preserves the indentation level on every
successful run. -/
def PreservesLevel (f : FmtState → Except String FmtState) : Prop :=
  ∀ st st', f st = .ok st' → st'.indentation_level = st.indentation_level

/-- There is a space character at index `i` of the line. -/
def spaceAt (line : List Char) (i : Nat) : Prop :=
  line.get? i = some ' '

instance (line : List Char) (i : Nat) : Decidable (spaceAt line i) := by
  unfold spaceAt
  infer_instance

/-- The length of the line's leading run of spaces. -/
def leadingSpaceCount (line : List Char) : Nat :=
  (line.takeWhile (fun c => c = ' ')).length

/-- The claim's notion of interior whitespace: whitespace that is neither
leading nor trailing. -/
def hasInteriorWhitespace (line : List Char) : Bool :=
  (pyStrip line).any isPySpace

/-- Spec sub-condition 1 of `needs_separator`, negated side: the child is
the first child and the parent is an inline or semicontainer element. -/
def SpecFirstChildOfSpecialParent (opts : FmtOptions)
    (parentTag : Option (List Char)) (prev : Option XNode) : Prop :=
  prev = none ∧
    ∃ t, parentTag = some t ∧
      (is_inline_element opts t = true ∨ is_semicontainer_element opts t = true)

/-- Spec sub-condition 2, negated side: the immediately preceding sibling
is an Element classified inline or semicontainer. -/
def SpecAfterSpecialSibling (opts : FmtOptions) (prev : Option XNode) :
    Prop :=
  ∃ t a c, prev = some (.element t a c) ∧
    (is_inline_element opts t = true ∨ is_semicontainer_element opts t = true)

/-- Spec sub-condition 3, negated side: the preceding sibling is a Text
node and the child is itself a Text node or an inline Element. -/
def SpecAdjacentTextRun (opts : FmtOptions) (prev : Option XNode)
    (child : XNode) : Prop :=
  (∃ d b, prev = some (.text d b)) ∧
    (isTextNode child = true ∨
      (∃ t a c, child = .element t a c ∧ is_inline_element opts t = true))

/-- C1 counterexample input: `<r> </r>` — one whitespace-only text child. -/
def c1Node : XNode :=
  .element "r".data [] [.text " ".data false]

/-- C9 witness configuration: the tag `a` is configured both inline and
semicontainer. -/
def c9Opts : FmtOptions :=
  { inline_elements := ["a".data], semicontainer_elements := ["a".data] }

/-- C3 counterexample document: `<r><c>x y</c></r>`. -/
def c3Doc : XDocument :=
  ⟨none, none, none,
    [.element "r".data [] [.element "c".data [] [.text "x y".data false]]]⟩

/-- C3 counterexample options: two-space indentation, line limit 2. -/
def c3Opts : FmtOptions :=
  { indentation := 2, max_line_length := 2 }

/-- The full output of the C3 counterexample run. -/
def c3State : FmtState :=
  ⟨0, ["<?xml\n".data, "version=\"1.0\"\n".data,
    "encoding=\"UTF-8\"?>\n".data, "<r>\n".data, "  <c>\n".data,
    "    x y\n".data, "  </c>\n".data, "</r>".data]⟩

theorem pyReplaceChar_eq_mapEsc (pat : Char) (rep : List Char)
    (s : List Char) :
    pyReplaceChar pat rep s = mapEsc (oneEsc pat rep) s := by
  induction s with
  | nil => rfl
  | cons c cs ih =>
    by_cases h : c = pat <;> simp [pyReplaceChar, mapEsc, oneEsc, h, ih]

theorem mapEsc_id_of_not_mem (pat : Char) (rep : List Char) (s : List Char)
    (h : ¬ pat ∈ s) : mapEsc (oneEsc pat rep) s = s := by
  induction s with
  | nil => rfl
  | cons c cs ih =>
    simp only [List.mem_cons, not_or] at h
    have hc : ¬ c = pat := fun hh => h.1 hh.symm
    simp [mapEsc, oneEsc, hc, ih h.2]

theorem guarded_replace_eq_mapEsc (pat : Char) (rep : List Char)
    (s : List Char) :
    (if pat ∈ s then pyReplaceChar pat rep s else s) =
      mapEsc (oneEsc pat rep) s := by
  by_cases h : pat ∈ s
  · simp [h, pyReplaceChar_eq_mapEsc]
  · simp [h, mapEsc_id_of_not_mem pat rep s h]

theorem mapEsc_append (f : Char → List Char) (s t : List Char) :
    mapEsc f (s ++ t) = mapEsc f s ++ mapEsc f t := by
  induction s with
  | nil => rfl
  | cons c cs ih => simp [mapEsc, ih]

theorem mapEsc_mapEsc (f g : Char → List Char) (s : List Char) :
    mapEsc g (mapEsc f s) = mapEsc (fun c => mapEsc g (f c)) s := by
  induction s with
  | nil => rfl
  | cons c cs ih => simp [mapEsc, mapEsc_append, ih]

theorem mapEsc_congr (f g : Char → List Char) (s : List Char)
    (h : ∀ c, f c = g c) : mapEsc f s = mapEsc g s := by
  induction s with
  | nil => rfl
  | cons c cs ih => simp [mapEsc, h, ih]

/-- The five sequential replaces act characterwise: each source character is
escaped exactly once (no double escaping, because `&` is replaced first and
the later replaces never touch the `&` that the earlier ones produced). -/
theorem escape_xml_entities_eq_mapEsc (s : List Char) :
    escape_xml_entities s = mapEsc escChar s := by
  simp only [escape_xml_entities, guarded_replace_eq_mapEsc, mapEsc_mapEsc]
  apply mapEsc_congr
  intro c
  by_cases h1 : c = '&'
  · subst h1; decide
  · by_cases h2 : c = '<'
    · subst h2; decide
    · by_cases h3 : c = '>'
      · subst h3; decide
      · by_cases h4 : c = quotChar
        · subst h4; decide
        · by_cases h5 : c = aposChar
          · subst h5; decide
          · simp [oneEsc, mapEsc, escChar, h1, h2, h3, h4, h5]

theorem unescapeGo_cons_of_ne_amp (fuel : Nat) (c : Char) (t : List Char)
    (h : ¬ c = '&') :
    unescapeGo (fuel + 1) (c :: t) = c :: unescapeGo fuel t := by
  simp [unescapeGo, h]

theorem unescapeGo_amp (fuel : Nat) (t : List Char) (d : Char)
    (r : List Char) (h : entDec t = some (d, r)) :
    unescapeGo (fuel + 1) ('&' :: t) = d :: unescapeGo fuel r := by
  simp [unescapeGo, h]

theorem escChar_length_pos (c : Char) : 0 < (escChar c).length := by
  by_cases h1 : c = '&'
  · subst h1; decide
  · by_cases h2 : c = '<'
    · subst h2; decide
    · by_cases h3 : c = '>'
      · subst h3; decide
      · by_cases h4 : c = quotChar
        · subst h4; decide
        · by_cases h5 : c = aposChar
          · subst h5; decide
          · simp [escChar, h1, h2, h3, h4, h5]

theorem unescapeGo_escChar (fuel : Nat) (c : Char) (t : List Char) :
    unescapeGo (fuel + 1) (escChar c ++ t) = c :: unescapeGo fuel t := by
  by_cases h1 : c = '&'
  · subst h1
    rw [show escChar '&' = ampEsc from by decide]
    show unescapeGo (fuel + 1) ('&' :: ('a' :: 'm' :: 'p' :: ';' :: t)) = _
    rw [unescapeGo_amp fuel _ '&' t (by simp [entDec])]
  · by_cases h2 : c = '<'
    · subst h2
      rw [show escChar '<' = ltEsc from by decide]
      show unescapeGo (fuel + 1) ('&' :: ('l' :: 't' :: ';' :: t)) = _
      rw [unescapeGo_amp fuel _ '<' t (by simp [entDec])]
    · by_cases h3 : c = '>'
      · subst h3
        rw [show escChar '>' = gtEsc from by decide]
        show unescapeGo (fuel + 1) ('&' :: ('g' :: 't' :: ';' :: t)) = _
        rw [unescapeGo_amp fuel _ '>' t (by simp [entDec])]
      · by_cases h4 : c = quotChar
        · subst h4
          rw [show escChar quotChar = quotEsc from by decide]
          show unescapeGo (fuel + 1)
            ('&' :: ('q' :: 'u' :: 'o' :: 't' :: ';' :: t)) = _
          rw [unescapeGo_amp fuel _ quotChar t (by simp [entDec])]
        · by_cases h5 : c = aposChar
          · subst h5
            rw [show escChar aposChar = aposEsc from by decide]
            show unescapeGo (fuel + 1)
              ('&' :: ('a' :: 'p' :: 'o' :: 's' :: ';' :: t)) = _
            rw [unescapeGo_amp fuel _ aposChar t (by simp [entDec])]
          · have he : escChar c = [c] := by
              simp [escChar, h1, h2, h3, h4, h5]
            rw [he, List.singleton_append,
              unescapeGo_cons_of_ne_amp fuel c t h1]

theorem unescapeGo_mapEsc (s : List Char) :
    ∀ fuel, s.length ≤ fuel → unescapeGo fuel (mapEsc escChar s) = s := by
  induction s with
  | nil =>
    intro fuel _
    cases fuel <;> rfl
  | cons c cs ih =>
    intro fuel hf
    cases fuel with
    | zero => simp at hf
    | succ f =>
      show unescapeGo (f + 1) (escChar c ++ mapEsc escChar cs) = c :: cs
      rw [unescapeGo_escChar]
      rw [ih f (by simp only [List.length_cons] at hf; omega)]

theorem length_le_mapEsc_length (s : List Char) :
    s.length ≤ (mapEsc escChar s).length := by
  induction s with
  | nil => simp [mapEsc]
  | cons c cs ih =>
    have := escChar_length_pos c
    simp only [mapEsc, List.length_append, List.length_cons]
    omega

/-- Round trip: re-parsing an escaped value restores the original. -/
theorem unescape_escape (s : List Char) :
    unescape_xml_entities (escape_xml_entities s) = s := by
  rw [escape_xml_entities_eq_mapEsc]
  exact unescapeGo_mapEsc s _ (length_le_mapEsc_length s)

/--
C1: the spec claims `_is_empty_element` is true iff the element has no
children **or** has exactly one whitespace-only Text/CDATA child.  The
source returns `not element.hasChildNodes()` — an element with one
whitespace-only text child is NOT empty.  `<r> </r>` separates the two:
the code (and the repository's own test
`element_is_not_empty_because_of_whitespace`) gives false, the claim's
disjunction gives true.  (`_is_whitespace_only_text` exists in the source
but is never called.)
-/
theorem claim_C1_counterexample :
    is_empty_element c1Node = false ∧ specIsEmpty c1Node = true := by
  decide

/-- C1, amended: the emptiness test returns true iff the element has no
children.  (The spec's own examples remain valid because minidom creates
no node at all for an empty CDATA section.) -/
theorem claim_C1 (t : List Char) (attrs : List (List Char × List Char))
    (children : List XNode) :
    is_empty_element (.element t attrs children) = true ↔ children = [] := by
  simp [is_empty_element, hasChildNodes]

/--
C4: the spec claims ten independently defaulted option fields.  The
`Options` dataclass in `options.py` defines exactly five —
`indentation` (4), `max_line_length` (80), `inline_elements` (empty),
`comments_have_trailing_spaces` (true), `comments_start_new_lines` (true);
`semicontainer_elements`, `sorted_attributes` and the three doctype/PI
layout flags are missing, although `formatter.py` reads all five missing
fields and the test suite constructs `Options` with
`semicontainer_elements` and expects `max_line_length` to default to 120.
This theorem records the five fields the source actually defines, with
their defaults.
-/
theorem claim_C4 :
    ({} : Options).indentation = 4 ∧
    ({} : Options).max_line_length = 80 ∧
    ({} : Options).inline_elements = [] ∧
    ({} : Options).comments_have_trailing_spaces = true ∧
    ({} : Options).comments_start_new_lines = true :=
  ⟨rfl, rfl, rfl, rfl, rfl⟩

theorem levelTrace_nonneg (ops : List IndentOp) :
    ∀ start : Int, 0 ≤ start → ∀ l ∈ levelTrace ops start, 0 ≤ l := by
  induction ops with
  | nil =>
    intro start hs l hl
    simp [levelTrace] at hl
    omega
  | cons op ops ih =>
    intro start hs l hl
    simp only [levelTrace] at hl
    rcases List.mem_cons.mp hl with h | h
    · omega
    · cases op with
      | inc =>
        simp only [applyIndentOp, increase_indentation_level] at h
        exact ih (start + 1) (by omega) l h
      | dec =>
        simp only [applyIndentOp, decrease_indentation_level] at h
        by_cases h0 : start = 0
        · simp [h0] at h
        · simp only [h0, if_false] at h
          exact ih (start - 1) (by omega) l h

/--
C7: decrementing the indentation level at zero raises (`ValueError`,
leaving the level as it was — an `error` outcome carries no new level);
decrementing a positive level yields exactly one less; an error can only
happen at level zero; and along any run of increase/decrease operations
from the initial level 0, every reached level is non-negative.
-/
theorem claim_C7 :
    decrease_indentation_level 0 =
      .error "Indentation level cannot be lower than zero" ∧
    (∀ l : Int, 0 < l → decrease_indentation_level l = .ok (l - 1)) ∧
    (∀ (l : Int) (e : String),
      decrease_indentation_level l = .error e → l = 0) ∧
    (∀ ops : List IndentOp, ∀ l ∈ levelTrace ops 0, 0 ≤ l) := by
  refine ⟨rfl, ?_, ?_, ?_⟩
  · intro l hl
    unfold decrease_indentation_level
    rw [if_neg (by omega)]
  · intro l e he
    by_cases h0 : l = 0
    · exact h0
    · simp [decrease_indentation_level, h0] at he
  · intro ops l hl
    exact levelTrace_nonneg ops 0 le_rfl l hl

/-- C7 witness: the theorem applied at concrete inputs — decrementing 3
gives 2, and the level 1 reached by a concrete run is non-negative. -/
theorem claim_C7_witness :
    decrease_indentation_level 3 = .ok 2 ∧ (0 : Int) ≤ 1 :=
  ⟨claim_C7.2.1 3 (by norm_num),
    claim_C7.2.2.2 [.inc] 1 (by decide)⟩

/--
C9: a tag configured both inline and semicontainer is classified inline
(`_process_element_node` tests inline membership first), so the element is
dispatched to the inline processing methods.
-/
theorem claim_C9 (opts : FmtOptions) (t : List Char)
    (attrs : List (List Char × List Char)) (children : List XNode)
    (st : FmtState) (procNode : XNode → FmtState → Except String FmtState)
    (h1 : is_inline_element opts t = true)
    (_h2 : is_semicontainer_element opts t = true) :
    element_group opts t = .inline ∧
    process_element_node_with procNode opts t attrs children st =
      (if is_empty_element (.element t attrs children) then
        .ok (process_empty_inline_element opts t attrs st)
      else
        process_nonempty_inline_element procNode opts t attrs children st) := by
  have hg : element_group opts t = .inline := by
    simp [element_group, h1]
  refine ⟨hg, ?_⟩
  unfold process_element_node_with
  rw [hg]
  cases hE : is_empty_element (.element t attrs children) <;> simp [hE]

/-- C9 witness: tag `a` configured in both sets, applied to `<a/>`. -/
theorem claim_C9_witness :
    element_group c9Opts "a".data = .inline ∧
    process_element_node_with (fun _ st => .ok st) c9Opts "a".data [] []
        ⟨0, []⟩ =
      (if is_empty_element (.element "a".data [] []) then
        .ok (process_empty_inline_element c9Opts "a".data [] ⟨0, []⟩)
      else
        process_nonempty_inline_element (fun _ st => .ok st) c9Opts "a".data
          [] [] ⟨0, []⟩) :=
  claim_C9 c9Opts "a".data [] [] ⟨0, []⟩ (fun _ st => .ok st) (by decide)
    (by decide)

theorem first_child_iff (opts : FmtOptions) (parentTag : Option (List Char))
    (prev : Option XNode) :
    needs_indent_for_first_child opts parentTag prev = true ↔
      ¬ SpecFirstChildOfSpecialParent opts parentTag prev := by
  cases prev <;> cases parentTag <;>
    simp [needs_indent_for_first_child, SpecFirstChildOfSpecialParent,
      or_iff_not_imp_left, and_comm]

theorem after_special_sibling_iff (opts : FmtOptions)
    (prev : Option XNode) :
    needs_indent_after_special_sibling opts prev = true ↔
      ¬ SpecAfterSpecialSibling opts prev := by
  cases prev with
  | none => simp [needs_indent_after_special_sibling, SpecAfterSpecialSibling]
  | some p =>
    cases p <;>
      simp [needs_indent_after_special_sibling, SpecAfterSpecialSibling,
        or_iff_not_imp_left, and_comm]

theorem adjacent_text_run_iff (opts : FmtOptions) (prev : Option XNode)
    (child : XNode) :
    needs_indent_for_text opts prev child = true ↔
      ¬ SpecAdjacentTextRun opts prev child := by
  cases prev with
  | none => simp [needs_indent_for_text, SpecAdjacentTextRun]
  | some p =>
    cases p <;> cases child <;>
      simp [needs_indent_for_text, SpecAdjacentTextRun, isTextNode,
        or_iff_not_imp_left]

/--
C2: a separating indentation is emitted before a child exactly when all
three sub-conditions hold — the child is not the first child of an
inline/semicontainer parent, the preceding sibling is not an
inline/semicontainer Element, and it is not a text/inline run glued to a
preceding Text node.  The second conjunct shows that
`_process_all_child_nodes` emits the indentation before a child exactly
when `_needs_indentation` holds; the first identifies `_needs_indentation`
with the conjunction of the spec's three negated sub-conditions, so any
single failing sub-condition suppresses the indentation.
-/
theorem claim_C2 (opts : FmtOptions) (parentTag : Option (List Char))
    (prev : Option XNode) (child : XNode) :
    (needs_indentation opts parentTag prev child = true ↔
      (¬ SpecFirstChildOfSpecialParent opts parentTag prev ∧
       ¬ SpecAfterSpecialSibling opts prev ∧
       ¬ SpecAdjacentTextRun opts prev child)) ∧
    (∀ (procNode : XNode → FmtState → Except String FmtState)
        (rest : List XNode) (st : FmtState),
      process_all_child_nodes_with procNode opts parentTag prev
          (child :: rest) st =
        (if needs_indentation opts parentTag prev child then
          add_indentation opts st
        else .ok st) >>= fun st2 =>
        procNode child st2 >>= fun st3 =>
        process_all_child_nodes_with procNode opts parentTag (some child)
          rest st3) := by
  constructor
  · simp only [needs_indentation, Bool.and_eq_true]
    rw [first_child_iff, after_special_sibling_iff, adjacent_text_run_iff]
    tauto
  · intro procNode rest st
    rfl

/--
C5: an attribute renders as ` name="escaped(value)"`; the escaping acts
exactly once on each source character (`&` is substituted first, so nothing
is double-escaped); and unescaping (re-parsing) the emitted value restores
the original attribute value exactly.
-/
theorem claim_C5 (name value : List Char) (st : FmtState) :
    process_attribute_node name value st =
      appendFrag st
        (" ".data ++ name ++ "=".data ++ [quotChar] ++
          escape_xml_entities value ++ [quotChar]) ∧
    escape_xml_entities value = mapEsc escChar value ∧
    unescape_xml_entities (escape_xml_entities value) = value :=
  ⟨rfl, escape_xml_entities_eq_mapEsc value, unescape_escape value⟩

theorem spaceAt_iff (line : List Char) (i : Nat) :
    spaceAt line i ↔ ∃ h : i < line.length, line.get ⟨i, h⟩ = ' ' := by
  unfold spaceAt
  constructor
  · intro h
    have hl : i < line.length := by
      by_contra hn
      rw [List.get?_eq_none.mpr (by omega)] at h
      exact Option.noConfusion h
    refine ⟨hl, ?_⟩
    rw [List.get?_eq_get hl] at h
    exact Option.some.inj h
  · rintro ⟨hl, hsp⟩
    rw [List.get?_eq_get hl, hsp]

theorem not_spaceAt_of_le_length (line : List Char) (i : Nat)
    (h : line.length ≤ i) : ¬ spaceAt line i := by
  intro hs
  rw [spaceAt_iff] at hs
  obtain ⟨hl, _⟩ := hs
  omega

theorem rfindSpaceBefore_some (line : List Char) :
    ∀ bound i, rfindSpaceBefore line bound = some i →
      spaceAt line i ∧ i < bound ∧
        ∀ j, i < j → j < bound → ¬ spaceAt line j := by
  intro bound
  induction bound with
  | zero =>
    intro i h
    simp [rfindSpaceBefore] at h
  | succ b ih =>
    intro i h
    unfold rfindSpaceBefore at h
    by_cases hb : b < line.length
    · rw [dif_pos hb] at h
      by_cases hsp : line.get ⟨b, hb⟩ = ' '
      · rw [if_pos hsp] at h
        cases h
        refine ⟨(spaceAt_iff line b).mpr ⟨hb, hsp⟩, Nat.lt_succ_self b, ?_⟩
        intro j h1 h2
        omega
      · rw [if_neg hsp] at h
        obtain ⟨hs, hlt, hlast⟩ := ih i h
        refine ⟨hs, by omega, ?_⟩
        intro j h1 h2
        by_cases hjb : j = b
        · subst hjb
          intro hcon
          rw [spaceAt_iff] at hcon
          obtain ⟨hl, hg⟩ := hcon
          exact hsp hg
        · exact hlast j h1 (by omega)
    · rw [dif_neg hb] at h
      obtain ⟨hs, hlt, hlast⟩ := ih i h
      refine ⟨hs, by omega, ?_⟩
      intro j h1 h2
      by_cases hjb : j = b
      · subst hjb
        exact not_spaceAt_of_le_length line j (by omega)
      · exact hlast j h1 (by omega)

theorem rfindSpaceBefore_none (line : List Char) :
    ∀ bound, rfindSpaceBefore line bound = none →
      ∀ j, j < bound → ¬ spaceAt line j := by
  intro bound
  induction bound with
  | zero =>
    intro _ j hj
    omega
  | succ b ih =>
    intro h j hj
    unfold rfindSpaceBefore at h
    by_cases hb : b < line.length
    · rw [dif_pos hb] at h
      by_cases hsp : line.get ⟨b, hb⟩ = ' '
      · rw [if_pos hsp] at h
        exact Option.noConfusion h
      · rw [if_neg hsp] at h
        by_cases hjb : j = b
        · subst hjb
          intro hcon
          rw [spaceAt_iff] at hcon
          obtain ⟨_, hg⟩ := hcon
          exact hsp hg
        · exact ih h j (by omega)
    · rw [dif_neg hb] at h
      by_cases hjb : j = b
      · subst hjb
        exact not_spaceAt_of_le_length line j (by omega)
      · exact ih h j (by omega)

theorem findSpaceIdx_some (l : List Char) :
    ∀ base k, findSpaceIdx l base = some k →
      base ≤ k ∧ l.get? (k - base) = some ' ' ∧
        ∀ m, m < k - base → l.get? m ≠ some ' ' := by
  induction l with
  | nil =>
    intro base k h
    simp [findSpaceIdx] at h
  | cons c rest ih =>
    intro base k h
    unfold findSpaceIdx at h
    by_cases hc : c = ' '
    · rw [if_pos hc] at h
      cases h
      refine ⟨le_rfl, ?_, ?_⟩
      · simp [hc]
      · intro m hm
        omega
    · rw [if_neg hc] at h
      obtain ⟨hle, hsp, hmin⟩ := ih (base + 1) k h
      refine ⟨by omega, ?_, ?_⟩
      · have : k - base = (k - (base + 1)) + 1 := by omega
        rw [this]
        simpa using hsp
      · intro m hm
        cases m with
        | zero =>
          simp only [List.get?]
          intro hcon
          exact hc (Option.some.inj hcon)
        | succ m2 =>
          have : m2 < k - (base + 1) := by omega
          simpa using hmin m2 this

theorem findSpaceIdx_none (l : List Char) :
    ∀ base, findSpaceIdx l base = none →
      ∀ m, l.get? m ≠ some ' ' := by
  induction l with
  | nil =>
    intro base _ m
    simp
  | cons c rest ih =>
    intro base h m
    unfold findSpaceIdx at h
    by_cases hc : c = ' '
    · rw [if_pos hc] at h
      exact Option.noConfusion h
    · rw [if_neg hc] at h
      cases m with
      | zero =>
        simp only [List.get?]
        intro hcon
        exact hc (Option.some.inj hcon)
      | succ m2 => simpa using ih (base + 1) h m2

theorem get?_drop_eq (line : List Char) (start m : Nat) :
    (line.drop start).get? m = line.get? (start + m) := by
  rw [List.get?_drop]

theorem findSpaceFrom_some (line : List Char) (start k : Nat)
    (h : findSpaceFrom line start = some k) :
    start ≤ k ∧ spaceAt line k ∧
      ∀ j, start ≤ j → j < k → ¬ spaceAt line j := by
  unfold findSpaceFrom at h
  obtain ⟨hle, hsp, hmin⟩ := findSpaceIdx_some (line.drop start) start k h
  rw [get?_drop_eq] at hsp
  have hk : start + (k - start) = k := by omega
  rw [hk] at hsp
  refine ⟨hle, hsp, ?_⟩
  intro j h1 h2 hcon
  have hj : (line.drop start).get? (j - start) = some ' ' := by
    rw [get?_drop_eq]
    have : start + (j - start) = j := by omega
    rw [this]
    exact hcon
  exact hmin (j - start) (by omega) hj

theorem findSpaceFrom_none (line : List Char) (start : Nat)
    (h : findSpaceFrom line start = none) :
    ∀ j, start ≤ j → ¬ spaceAt line j := by
  unfold findSpaceFrom at h
  intro j hj hcon
  have : (line.drop start).get? (j - start) = some ' ' := by
    rw [get?_drop_eq]
    have heq : start + (j - start) = j := by omega
    rw [heq]
    exact hcon
  exact findSpaceIdx_none (line.drop start) start h (j - start) this

theorem find_split_position_some (maxLen : Nat) (line : List Char) (i : Nat)
    (h : find_split_position maxLen line = some i) :
    spaceAt line i ∧
      ((i < maxLen ∧ ∀ j, i < j → j < maxLen → ¬ spaceAt line j) ∨
       ((∀ j, j < maxLen → ¬ spaceAt line j) ∧ maxLen ≤ i ∧
         ∀ j, maxLen ≤ j → j < i → ¬ spaceAt line j)) := by
  unfold find_split_position at h
  cases hr : rfindSpaceBefore line maxLen with
  | some i2 =>
    rw [hr] at h
    cases h
    obtain ⟨hs, hlt, hlast⟩ := rfindSpaceBefore_some line maxLen i hr
    exact ⟨hs, Or.inl ⟨hlt, hlast⟩⟩
  | none =>
    rw [hr] at h
    obtain ⟨hle, hs, hmin⟩ := findSpaceFrom_some line maxLen i h
    have hbelow := rfindSpaceBefore_none line maxLen hr
    exact ⟨hs, Or.inr ⟨hbelow, hle, hmin⟩⟩

theorem find_split_position_none (maxLen : Nat) (line : List Char)
    (h : find_split_position maxLen line = none) :
    ∀ j, ¬ spaceAt line j := by
  unfold find_split_position at h
  cases hr : rfindSpaceBefore line maxLen with
  | some i2 =>
    rw [hr] at h
    exact Option.noConfusion h
  | none =>
    rw [hr] at h
    intro j
    by_cases hj : j < maxLen
    · exact rfindSpaceBefore_none line maxLen hr j hj
    · exact findSpaceFrom_none line maxLen h j (by omega)

/--
C6: for an overlong line, `_find_split_position` chooses the last space
within the first `max_line_length` characters when one exists; otherwise
the first space at or beyond that bound; and when the line contains no
space at all it returns `None` and the splitting loop leaves the line
intact even if over length.
-/
theorem claim_C6 (maxLen : Nat) (line : List Char) :
    (∀ i, find_split_position maxLen line = some i →
      spaceAt line i ∧
        ((i < maxLen ∧ ∀ j, i < j → j < maxLen → ¬ spaceAt line j) ∨
         ((∀ j, j < maxLen → ¬ spaceAt line j) ∧ maxLen ≤ i ∧
           ∀ j, maxLen ≤ j → j < i → ¬ spaceAt line j))) ∧
    (find_split_position maxLen line = none ↔ ∀ j, ¬ spaceAt line j) ∧
    ((∀ j, ¬ spaceAt line j) →
      ∀ indent fuel, splitLineGo maxLen indent fuel line = [line]) := by
  have hnone : (∀ j, ¬ spaceAt line j) →
      find_split_position maxLen line = none := by
    intro hns
    cases hfp : find_split_position maxLen line with
    | none => rfl
    | some i =>
      obtain ⟨hs, _⟩ := find_split_position_some maxLen line i hfp
      exact absurd hs (hns i)
  refine ⟨find_split_position_some maxLen line, ?_, ?_⟩
  · constructor
    · exact find_split_position_none maxLen line
    · exact hnone
  · intro hns indent fuel
    cases fuel with
    | zero => rfl
    | succ f =>
      unfold splitLineGo
      by_cases hlen : line.length > maxLen
      · rw [if_pos hlen, hnone hns]
      · rw [if_neg hlen]

/-- C6 witness: applied at the concrete line `"ab cd"` with limit 4 (a
space exists before the limit) and at the spaceless line `"abc"` (left
intact). -/
theorem no_space_of_not_any (line : List Char)
    (h : line.any (fun c => c = ' ') = false) :
    ∀ j, ¬ spaceAt line j := by
  intro j hcon
  unfold spaceAt at hcon
  have hm : ' ' ∈ line := List.get?_mem hcon
  rw [List.any_eq_false] at h
  have := h ' ' hm
  simp at this

theorem claim_C6_witness :
    (spaceAt "ab cd".data 2 ∧
      ((2 < 4 ∧ ∀ j, 2 < j → j < 4 → ¬ spaceAt "ab cd".data j) ∨
       ((∀ j, j < 4 → ¬ spaceAt "ab cd".data j) ∧ 4 ≤ 2 ∧
         ∀ j, 4 ≤ j → j < 2 → ¬ spaceAt "ab cd".data j))) ∧
    splitLineGo 4 [] 9 "abc".data = ["abc".data] :=
  ⟨(claim_C6 4 "ab cd".data).1 2 (by decide),
    (claim_C6 4 "abc".data).2.2 (no_space_of_not_any _ (by decide)) [] 9⟩

/--
C8: the splitting loop terminates on every input — in the fueled
embedding, any fuel exceeding the line length computes the same result as
the canonical fuel `line.length + 1`, because an iteration that continues
strictly shortens the line and every other outcome stops the loop (no
split position, the non-shortening guard, or a short enough line).
-/
theorem claim_C8 (maxLen : Nat) (indent : List Char) :
    ∀ (fuel : Nat) (line : List Char), line.length < fuel →
      splitLineGo maxLen indent fuel line =
        splitLineGo maxLen indent (line.length + 1) line := by
  intro fuel
  induction fuel using Nat.strong_induction_on with
  | _ fuel ih =>
    intro line hlen
    match fuel, hlen with
    | f + 1, hlen =>
      show splitLineGo maxLen indent (f + 1) line = _
      unfold splitLineGo
      by_cases hgt : line.length > maxLen
      · rw [if_pos hgt, if_pos hgt]
        cases hfp : find_split_position maxLen line with
        | none => rfl
        | some splitAt =>
          simp only []
          set line2 := indent ++ pyLstrip (line.drop (splitAt + 1)) with h2
          by_cases hsh : line2.length < line.length
          · rw [if_pos hsh, if_pos hsh]
            have e1 : splitLineGo maxLen indent f line2 =
                splitLineGo maxLen indent (line2.length + 1) line2 :=
              ih f (by omega) line2 (by omega)
            have e2 : splitLineGo maxLen indent line.length line2 =
                splitLineGo maxLen indent (line2.length + 1) line2 :=
              ih line.length (by omega) line2 (by omega)
            rw [e1, e2]
          · rw [if_neg hsh, if_neg hsh]
      · rw [if_neg hgt, if_neg hgt]

/-- C8 witness: the theorem applied at a concrete overlong line with ample
fuel. -/
theorem claim_C8_witness :
    splitLineGo 4 [] 100 "ab cd ef".data =
      splitLineGo 4 [] ("ab cd ef".data.length + 1) "ab cd ef".data :=
  claim_C8 4 [] 100 "ab cd ef".data (by decide)

/--
C3 counterexample: formatting `<r><c>x y</c></r>` with two-space
indentation and `max_line_length = 2` completes, and its postprocessed
output contains the line `"    x y\n"`: it has interior whitespace (the
space between `x` and `y`) and exceeds the limit.  The non-shortening
guard of `_split_too_long_lines` fires because the only split point lies
inside the line's leading indentation, so the line is emitted unshortened.
This refutes the claim that every output line with interior whitespace
fits within `max_line_length`.
-/
theorem claim_C3_counterexample :
    runFormatter c3Opts c3Doc = .ok c3State ∧
    "    x y\n".data ∈ c3State.result ∧
    hasInteriorWhitespace "    x y\n".data = true ∧
    2 < "    x y\n".data.length := by
  refine ⟨by rfl, by decide, by decide, by decide⟩

theorem length_dropWhile_le {α : Type} (p : α → Bool) (l : List α) :
    (l.dropWhile p).length ≤ l.length := by
  induction l with
  | nil => simp [List.dropWhile]
  | cons c cs ih =>
    by_cases h : p c
    · simp only [List.dropWhile, h]
      calc (cs.dropWhile p).length ≤ cs.length := ih
        _ ≤ (c :: cs).length := by simp
    · simp [List.dropWhile, h]

theorem pyRstrip_length_le (s : List Char) :
    (pyRstrip s).length ≤ s.length := by
  unfold pyRstrip
  rw [List.length_reverse]
  calc (s.reverse.dropWhile isPySpace).length
      ≤ s.reverse.length := length_dropWhile_le isPySpace s.reverse
    _ = s.length := List.length_reverse s

theorem mem_dropWhile {α : Type} (p : α → Bool) (l : List α) (c : α)
    (h : c ∈ l.dropWhile p) : c ∈ l := by
  induction l with
  | nil => simpa [List.dropWhile] using h
  | cons d ds ih =>
    by_cases hd : p d
    · simp only [List.dropWhile, hd] at h
      exact List.mem_cons_of_mem d (ih h)
    · simpa [List.dropWhile, hd] using h

theorem mem_pyRstrip (s : List Char) (c : Char) (h : c ∈ pyRstrip s) :
    c ∈ s := by
  unfold pyRstrip at h
  rw [List.mem_reverse] at h
  have := mem_dropWhile isPySpace s.reverse c h
  rwa [List.mem_reverse] at this

theorem mem_take_spaceAt (line : List Char) (n : Nat)
    (h : ' ' ∈ line.take n) : ∃ j, j < n ∧ spaceAt line j := by
  obtain ⟨j, hget⟩ := List.mem_iff_get?.mp h
  have hjn : j < n := by
    by_contra hcon
    rw [List.get?_eq_none.mpr (by rw [List.length_take]; omega)] at hget
    exact Option.noConfusion hget
  refine ⟨j, hjn, ?_⟩
  unfold spaceAt
  rw [← List.get?_take hjn]
  exact hget

theorem no_space_append_nl (cur : List Char) (h : ¬ ' ' ∈ cur) :
    ∀ idx, ¬ spaceAt (cur ++ ['\n']) idx := by
  intro idx hcon
  unfold spaceAt at hcon
  have hmem : ' ' ∈ cur ++ ['\n'] := List.get?_mem hcon
  rcases List.mem_append.mp hmem with hm | hm
  · exact h hm
  · simp at hm

theorem dropWhile_eq_drop {α : Type} (p : α → Bool) (l : List α) :
    l.dropWhile p = l.drop ((l.takeWhile p).length) := by
  induction l with
  | nil => rfl
  | cons c cs ih =>
    by_cases h : p c <;> simp [List.dropWhile, List.takeWhile, h, ih]

theorem leadingSpaceCount_append_ge (ind t : List Char)
    (h : ∀ c ∈ ind, c = ' ') :
    ind.length ≤ leadingSpaceCount (ind ++ t) := by
  induction ind with
  | nil => simp
  | cons c cs ih =>
    have hc : c = ' ' := h c (List.mem_cons_self c cs)
    have hcs : ∀ d ∈ cs, d = ' ' := fun d hd => h d (List.mem_cons_of_mem c hd)
    have hrec := ih hcs
    unfold leadingSpaceCount at hrec ⊢
    rw [List.cons_append, List.takeWhile_cons_of_pos (by simp [hc]),
      List.length_cons, List.length_cons]
    omega

theorem splitLineGo_space_bound (maxLen : Nat) :
    ∀ (fuel : Nat) (indent line : List Char),
      (∀ c ∈ indent, c = ' ') →
      line.length < fuel →
      ∀ L ∈ splitLineGo maxLen indent fuel line,
        L.length ≤ maxLen ∨
          ∀ i, i < maxLen → spaceAt L i → i < leadingSpaceCount L := by
  intro fuel
  induction fuel using Nat.strong_induction_on with
  | _ fuel ih =>
    intro indent line hind hlen L hL
    match fuel, hlen with
    | f + 1, hlen =>
      unfold splitLineGo at hL
      by_cases hgt : line.length > maxLen
      · rw [if_pos hgt] at hL
        cases hfp : find_split_position maxLen line with
        | none =>
          rw [hfp] at hL
          have hLeq := List.mem_singleton.mp hL
          subst hLeq
          right
          intro i _ hsp
          exact absurd hsp (find_split_position_none maxLen _ hfp i)
        | some splitAt =>
          rw [hfp] at hL
          simp only [] at hL
          by_cases hsh :
              (indent ++ pyLstrip (line.drop (splitAt + 1))).length <
                line.length
          · rw [if_pos hsh] at hL
            rcases List.mem_cons.mp hL with hLeq | hLrec
            · subst hLeq
              rcases (find_split_position_some maxLen line splitAt hfp).2
                with hA | hB
              · left
                have h1 : (pyRstrip (line.take splitAt)).length ≤ splitAt := by
                  calc (pyRstrip (line.take splitAt)).length
                      ≤ (line.take splitAt).length :=
                        pyRstrip_length_le (line.take splitAt)
                    _ ≤ splitAt := by
                        rw [List.length_take]
                        omega
                rw [List.length_append]
                simp only [List.length_singleton]
                omega
              · right
                intro i _ hsp
                exfalso
                have hnosp : ¬ ' ' ∈ pyRstrip (line.take splitAt) := by
                  intro hmem
                  have hmem2 : ' ' ∈ line.take splitAt :=
                    mem_pyRstrip _ _ hmem
                  obtain ⟨j, hjlt, hjsp⟩ := mem_take_spaceAt line splitAt hmem2
                  obtain ⟨hbelow, hge, hmid⟩ := hB
                  by_cases hjm : j < maxLen
                  · exact hbelow j hjm hjsp
                  · exact hmid j (by omega) hjlt hjsp
                exact no_space_append_nl _ hnosp i hsp
            · exact ih f (Nat.lt_succ_self f) indent _ hind (by omega) L hLrec
          · rw [if_neg hsh] at hL
            have hLeq := List.mem_singleton.mp hL
            subst hLeq
            right
            intro i hi hsp
            have hlead : indent.length ≤
                leadingSpaceCount (indent ++ pyLstrip (line.drop (splitAt + 1))) :=
              leadingSpaceCount_append_ge indent _ hind
            by_cases hik : i < indent.length
            · omega
            · exfalso
              have hsp2 :
                  (pyLstrip (line.drop (splitAt + 1))).get? (i - indent.length) =
                    some ' ' := by
                unfold spaceAt at hsp
                rw [List.get?_append_right (by omega)] at hsp
                exact hsp
              have htail2 : pyLstrip (line.drop (splitAt + 1)) =
                  line.drop (splitAt + 1 +
                    ((line.drop (splitAt + 1)).takeWhile isPySpace).length) := by
                unfold pyLstrip
                rw [dropWhile_eq_drop, List.drop_drop]
              rw [htail2] at hsp2
              rw [List.get?_drop] at hsp2
              set w := ((line.drop (splitAt + 1)).takeWhile isPySpace).length
                with hw
              set m := splitAt + 1 + w + (i - indent.length) with hm
              have hsp3 : line.get? m = some ' ' := hsp2
              have hm_lt : m < line.length := by
                rcases List.get?_eq_some.mp hsp3 with ⟨hlt, _⟩
                exact hlt
              have hlen2 :
                  (indent ++ pyLstrip (line.drop (splitAt + 1))).length =
                    indent.length + (line.length - (splitAt + 1 + w)) := by
                rw [List.length_append, htail2, List.length_drop]
              have hK : splitAt + 1 + w ≤ indent.length := by omega
              have hm_le : m ≤ i := by omega
              rcases (find_split_position_some maxLen line splitAt hfp).2
                with hA | hB
              · exact hA.2 m (by omega) (by omega) hsp3
              · have : maxLen ≤ splitAt := hB.2.1
                omega
      · rw [if_neg hgt] at hL
        have hLeq := List.mem_singleton.mp hL
        subst hLeq
        left
        omega

theorem mem_takeWhile_space (line : List Char) :
    ∀ c ∈ line.takeWhile (fun c => c = ' '), c = ' ' := by
  induction line with
  | nil => simp [List.takeWhile]
  | cons d ds ih =>
    intro c hc
    by_cases hd : d = ' '
    · rw [List.takeWhile_cons_of_pos (by simp [hd])] at hc
      rcases List.mem_cons.mp hc with h | h
      · rw [h, hd]
      · exact ih c h
    · rw [List.takeWhile_cons_of_neg (by simp [hd])] at hc
      simp at hc

/--
C3, amended: after the long-line splitting pass, every output line either
fits within `max_line_length` or has all its space characters before the
`max_line_length` bound inside its leading run of spaces.  In particular a
line with no space at all may exceed the limit (the claim's "single
unsplittable token"), and — the correction the counterexample forces — so
may an over-length line whose only pre-limit spaces are its leading
indentation, on which the non-shortening guard stops the loop.
-/
theorem claim_C3 (maxLen : Nat) (lines : List (List Char)) :
    ∀ L ∈ split_too_long_lines maxLen lines,
      L.length ≤ maxLen ∨
        ∀ i, i < maxLen → spaceAt L i → i < leadingSpaceCount L := by
  induction lines with
  | nil =>
    intro L hL
    simp [split_too_long_lines] at hL
  | cons line rest ih =>
    intro L hL
    unfold split_too_long_lines at hL
    rcases List.mem_append.mp hL with h | h
    · exact splitLineGo_space_bound maxLen (line.length + 1) _ line
        (mem_takeWhile_space line) (Nat.lt_succ_self _) L h
    · exact ih L h

/-- C3 witness: the amended theorem applied to the counterexample line. -/
theorem claim_C3_witness :
    "  ab cd".data.length ≤ 2 ∨
      ∀ i, i < 2 → spaceAt "  ab cd".data i →
        i < leadingSpaceCount "  ab cd".data :=
  claim_C3 2 ["  ab cd".data] "  ab cd".data (by decide)

theorem bind_ok {α β : Type} (x : Except String α) (f : α → Except String β)
    (b : β) (h : x >>= f = .ok b) : ∃ a, x = .ok a ∧ f a = .ok b := by
  cases x with
  | error e =>
    simp only [Bind.bind, Except.bind] at h
    exact Except.noConfusion h
  | ok a =>
    refine ⟨a, rfl, ?_⟩
    simpa only [Bind.bind, Except.bind] using h

theorem add_indentation_preserves (opts : FmtOptions) :
    PreservesLevel (add_indentation opts) := by
  intro st st' h
  unfold add_indentation at h
  obtain ⟨ind, _, h2⟩ := bind_ok _ _ _ h
  cases h2
  rfl

theorem process_text_preserves (data : List Char) :
    PreservesLevel (process_text data) := by
  intro st st' h
  unfold process_text at h
  obtain ⟨ws, _, h2⟩ := bind_ok _ _ _ h
  cases h2
  rfl

theorem process_text_node_preserves (data : List Char) (b : Bool) :
    PreservesLevel (process_text_node data b) := by
  intro st st' h
  unfold process_text_node at h
  by_cases hb : (!b) = true
  · rw [if_pos hb] at h
    exact process_text_preserves data st st' h
  · rw [if_neg hb] at h
    cases h
    rfl

theorem process_comment_node_preserves (opts : FmtOptions)
    (data : List Char) : PreservesLevel (process_comment_node opts data) := by
  intro st st' h
  unfold process_comment_node at h
  obtain ⟨ind, _, h2⟩ := bind_ok _ _ _ h
  cases h2
  rfl

theorem process_pi_node_preserves (opts : FmtOptions)
    (target data : List Char) :
    PreservesLevel (process_processing_instruction_node opts target data) := by
  intro st st' h
  unfold process_processing_instruction_node at h
  obtain ⟨ind, _, h2⟩ := bind_ok _ _ _ h
  cases h2
  rfl

theorem construct_internal_subset_level (opts : FmtOptions)
    (subset : Option (List Char)) (level : Int) (s : List Char) (l2 : Int)
    (h : construct_internal_subset opts subset level = .ok (s, l2)) :
    l2 = level := by
  unfold construct_internal_subset at h
  split at h
  · cases h
    rfl
  · split at h
    · cases h
      rfl
    · split at h
      · cases h
        rfl
      · obtain ⟨ind, _, h2⟩ := bind_ok _ _ _ h
        obtain ⟨lv2, h3, h4⟩ := bind_ok _ _ _ h2
        cases h4
        unfold decrease_indentation_level increase_indentation_level at h3
        by_cases hz : level + 1 = 0
        · rw [if_pos hz] at h3
          exact Except.noConfusion h3
        · rw [if_neg hz] at h3
          cases h3
          omega

theorem process_document_type_node_preserves (opts : FmtOptions)
    (name : List Char) (pub sys sub : Option (List Char)) :
    PreservesLevel (process_document_type_node opts name pub sys sub) := by
  intro st st' h
  unfold process_document_type_node at h
  obtain ⟨⟨s, l2⟩, h1, h2⟩ := bind_ok _ _ _ h
  cases h2
  exact construct_internal_subset_level opts sub st.indentation_level s l2 h1

theorem foldl_attr_level (l : List (List Char × List Char)) :
    ∀ st : FmtState,
      (l.foldl (fun acc a => process_attribute_node a.1 a.2 acc)
        st).indentation_level = st.indentation_level := by
  induction l with
  | nil => intro st; rfl
  | cons a as ih =>
    intro st
    rw [List.foldl_cons, ih]
    rfl

theorem process_attributes_level (opts : FmtOptions)
    (attrs : List (List Char × List Char)) (st : FmtState) :
    (process_attributes opts attrs st).indentation_level =
      st.indentation_level := by
  unfold process_attributes
  by_cases he : attrs.isEmpty = true
  · rw [if_pos he]
  · rw [if_neg he]
    exact foldl_attr_level _ st

theorem process_children_preserves
    (procNode : XNode → FmtState → Except String FmtState)
    (hproc : ∀ c, PreservesLevel (procNode c))
    (opts : FmtOptions) (parentTag : Option (List Char)) :
    ∀ (children : List XNode) (prev : Option XNode) (st st' : FmtState),
      process_all_child_nodes_with procNode opts parentTag prev children st =
        .ok st' →
      st'.indentation_level = st.indentation_level := by
  intro children
  induction children with
  | nil =>
    intro prev st st' h
    unfold process_all_child_nodes_with at h
    cases h
    rfl
  | cons c rest ih =>
    intro prev st st' h
    unfold process_all_child_nodes_with at h
    obtain ⟨st1, h1, h2⟩ := bind_ok _ _ _ h
    obtain ⟨st2, h3, h4⟩ := bind_ok _ _ _ h2
    have e1 : st1.indentation_level = st.indentation_level := by
      by_cases hni : needs_indentation opts parentTag prev c = true
      · rw [if_pos hni] at h1
        exact add_indentation_preserves opts st st1 h1
      · rw [if_neg hni] at h1
        cases h1
        rfl
    have e2 := hproc c st1 st2 h3
    have e3 := ih (some c) st2 st' h4
    rw [e3, e2, e1]

theorem empty_inline_level (opts : FmtOptions) (t : List Char)
    (attrs : List (List Char × List Char)) (st : FmtState) :
    (process_empty_inline_element opts t attrs st).indentation_level =
      st.indentation_level := by
  unfold process_empty_inline_element close_empty_tag open_start_tag
  rw [appendFrag, process_attributes_level]
  rfl

theorem decrease_ok_level (l : Int) (l2 : Int)
    (h : decrease_indentation_level l = .ok l2) : l2 = l - 1 := by
  unfold decrease_indentation_level at h
  by_cases hz : l = 0
  · rw [if_pos hz] at h
    exact Except.noConfusion h
  · rw [if_neg hz] at h
    cases h
    rfl

theorem nonempty_inline_preserves
    (procNode : XNode → FmtState → Except String FmtState)
    (hproc : ∀ c, PreservesLevel (procNode c))
    (opts : FmtOptions) (t : List Char)
    (attrs : List (List Char × List Char)) (children : List XNode) :
    PreservesLevel
      (process_nonempty_inline_element procNode opts t attrs children) := by
  intro st st' h
  unfold process_nonempty_inline_element at h
  obtain ⟨st1, h1, h2⟩ := bind_ok _ _ _ h
  obtain ⟨lb, h3, h4⟩ := bind_ok _ _ _ h2
  obtain ⟨st2, h5, h6⟩ := bind_ok _ _ _ h4
  obtain ⟨lvl, h7, h8⟩ := bind_ok _ _ _ h6
  cases h8
  have e1 := process_children_preserves procNode hproc opts (some t)
    children none _ _ h1
  have e2 : st2.indentation_level = st1.indentation_level := by
    by_cases hlb : lb = true
    · rw [if_pos hlb] at h5
      exact add_indentation_preserves opts st1 st2 h5
    · rw [if_neg hlb] at h5
      cases h5
      rfl
  have e3 := decrease_ok_level _ _ h7
  have e4 : (process_element_end_tag t
      { st2 with indentation_level := lvl }).indentation_level = lvl := rfl
  rw [e4, e3, e2, e1]
  show increase_indentation_level
      (close_start_tag (process_attributes opts attrs
        (open_start_tag t st))).indentation_level - 1 = st.indentation_level
  unfold increase_indentation_level close_start_tag open_start_tag
  rw [appendFrag, process_attributes_level]
  show st.indentation_level + 1 - 1 = st.indentation_level
  omega

theorem nonempty_semicontainer_preserves
    (procNode : XNode → FmtState → Except String FmtState)
    (hproc : ∀ c, PreservesLevel (procNode c))
    (opts : FmtOptions) (t : List Char)
    (attrs : List (List Char × List Char)) (children : List XNode) :
    PreservesLevel
      (process_nonempty_semicontainer_element procNode opts t attrs
        children) := by
  intro st st' h
  unfold process_nonempty_semicontainer_element at h
  obtain ⟨stI, hI, h0⟩ := bind_ok _ _ _ h
  obtain ⟨st1, h1, h2⟩ := bind_ok _ _ _ h0
  obtain ⟨lb, h3, h4⟩ := bind_ok _ _ _ h2
  obtain ⟨st2, h5, h6⟩ := bind_ok _ _ _ h4
  obtain ⟨lvl, h7, h8⟩ := bind_ok _ _ _ h6
  cases h8
  have eI := add_indentation_preserves opts _ _ hI
  have e1 := process_children_preserves procNode hproc opts (some t)
    children none _ _ h1
  have e2 : st2.indentation_level = st1.indentation_level := by
    by_cases hlb : lb = true
    · rw [if_pos hlb] at h5
      exact add_indentation_preserves opts st1 st2 h5
    · rw [if_neg hlb] at h5
      cases h5
      rfl
  have e3 := decrease_ok_level _ _ h7
  have e4 : (process_element_end_tag t
      { st2 with indentation_level := lvl }).indentation_level = lvl := rfl
  rw [e4, e3, e2, e1]
  show increase_indentation_level
      (close_start_tag (process_attributes opts attrs
        (open_start_tag t stI))).indentation_level - 1 = st.indentation_level
  unfold increase_indentation_level close_start_tag open_start_tag
  rw [appendFrag, process_attributes_level]
  rw [show (appendFrag stI _).indentation_level = stI.indentation_level
    from rfl]
  rw [eI]
  show st.indentation_level + 1 - 1 = st.indentation_level
  omega

theorem empty_semicontainer_preserves (opts : FmtOptions) (t : List Char)
    (attrs : List (List Char × List Char)) :
    PreservesLevel (process_empty_semicontainer_element opts t attrs) := by
  intro st st' h
  unfold process_empty_semicontainer_element at h
  obtain ⟨stI, hI, h0⟩ := bind_ok _ _ _ h
  cases h0
  have eI := add_indentation_preserves opts _ _ hI
  show (close_empty_tag (process_attributes opts attrs
    (open_start_tag t stI))).indentation_level = st.indentation_level
  unfold close_empty_tag open_start_tag
  rw [appendFrag, process_attributes_level]
  rw [show (appendFrag stI _).indentation_level = stI.indentation_level
    from rfl]
  rw [eI]
  rfl

theorem empty_container_preserves (opts : FmtOptions) (t : List Char)
    (attrs : List (List Char × List Char)) :
    PreservesLevel (process_empty_container_element opts t attrs) := by
  intro st st' h
  unfold process_empty_container_element at h
  obtain ⟨stI, hI, h0⟩ := bind_ok _ _ _ h
  cases h0
  have eI := add_indentation_preserves opts _ _ hI
  show (add_linebreak (close_empty_tag (process_attributes opts attrs
    (open_start_tag t stI)))).indentation_level = st.indentation_level
  unfold add_linebreak close_empty_tag open_start_tag
  rw [appendFrag, appendFrag, process_attributes_level]
  rw [show (appendFrag stI _).indentation_level = stI.indentation_level
    from rfl]
  rw [eI]
  rfl

theorem nonempty_container_preserves
    (procNode : XNode → FmtState → Except String FmtState)
    (hproc : ∀ c, PreservesLevel (procNode c))
    (opts : FmtOptions) (t : List Char)
    (attrs : List (List Char × List Char)) (children : List XNode) :
    PreservesLevel
      (process_nonempty_container_element procNode opts t attrs children) := by
  intro st st' h
  unfold process_nonempty_container_element at h
  obtain ⟨stI, hI, h0⟩ := bind_ok _ _ _ h
  obtain ⟨st1, h1, h2⟩ := bind_ok _ _ _ h0
  obtain ⟨lvl, h7, h8⟩ := bind_ok _ _ _ h2
  obtain ⟨st3, h9, h10⟩ := bind_ok _ _ _ h8
  cases h10
  have eI := add_indentation_preserves opts _ _ hI
  have e1 := process_children_preserves procNode hproc opts (some t)
    children none _ _ h1
  have e3 := decrease_ok_level _ _ h7
  have e9 := add_indentation_preserves opts _ _ h9
  show (add_linebreak (process_element_end_tag t st3)).indentation_level =
    st.indentation_level
  rw [add_linebreak, appendFrag]
  show (process_element_end_tag t st3).indentation_level =
    st.indentation_level
  rw [show (process_element_end_tag t st3).indentation_level =
    st3.indentation_level from rfl]
  rw [e9]
  show (add_linebreak { st1 with indentation_level := lvl }).indentation_level
    = st.indentation_level
  rw [add_linebreak, appendFrag]
  show lvl = st.indentation_level
  rw [e3, e1]
  show (add_linebreak { close_start_tag (process_attributes opts attrs
      (open_start_tag t stI)) with
        indentation_level := increase_indentation_level
          (close_start_tag (process_attributes opts attrs
            (open_start_tag t stI))).indentation_level
      }).indentation_level - 1 = st.indentation_level
  rw [add_linebreak, appendFrag]
  show increase_indentation_level
    (close_start_tag (process_attributes opts attrs
      (open_start_tag t stI))).indentation_level - 1 = st.indentation_level
  unfold increase_indentation_level close_start_tag open_start_tag
  rw [appendFrag, process_attributes_level]
  rw [show (appendFrag stI _).indentation_level = stI.indentation_level
    from rfl]
  rw [eI]
  show st.indentation_level + 1 - 1 = st.indentation_level
  omega

theorem process_element_node_preserves
    (procNode : XNode → FmtState → Except String FmtState)
    (hproc : ∀ c, PreservesLevel (procNode c))
    (opts : FmtOptions) (t : List Char)
    (attrs : List (List Char × List Char)) (children : List XNode) :
    PreservesLevel
      (process_element_node_with procNode opts t attrs children) := by
  intro st st' h
  unfold process_element_node_with at h
  cases hg : element_group opts t <;> rw [hg] at h <;>
    cases hE : is_empty_element (.element t attrs children) <;>
      rw [hE] at h
  · exact nonempty_inline_preserves procNode hproc opts t attrs children
      st st' h
  · cases h
    exact empty_inline_level opts t attrs st
  · exact nonempty_semicontainer_preserves procNode hproc opts t attrs
      children st st' h
  · exact empty_semicontainer_preserves opts t attrs st st' h
  · exact nonempty_container_preserves procNode hproc opts t attrs children
      st st' h
  · exact empty_container_preserves opts t attrs st st' h

theorem process_node_go_preserves (opts : FmtOptions) :
    ∀ (fuel : Nat) (n : XNode), PreservesLevel (process_node_go opts fuel n) := by
  intro fuel
  induction fuel with
  | zero =>
    intro n st st' h
    exact Except.noConfusion h
  | succ f ih =>
    intro n st st' h
    unfold process_node_go at h
    cases n with
    | element t attrs children =>
      exact process_element_node_preserves (process_node_go opts f) ih opts
        t attrs children st st' h
    | text data isCDATA => exact process_text_node_preserves data isCDATA st st' h
    | comment data => exact process_comment_node_preserves opts data st st' h
    | procInst target data =>
      exact process_pi_node_preserves opts target data st st' h
    | doctype name pub sys sub =>
      exact process_document_type_node_preserves opts name pub sys sub st st' h

theorem process_node_preserves (opts : FmtOptions) (n : XNode) :
    PreservesLevel (process_node opts n) := by
  intro st st' h
  exact process_node_go_preserves opts (nodeSize n) n st st' h

theorem process_document_node_preserves (opts : FmtOptions)
    (doc : XDocument) : PreservesLevel (process_document_node opts doc) := by
  intro st st' h
  unfold process_document_node at h
  have := process_children_preserves (process_node opts)
    (process_node_preserves opts) opts none doc.children none _ _ h
  rw [this]
  rfl

/--
C10 (implicit): on every run of the formatter pipeline that completes
without raising, the indentation-level counter ends at exactly zero — every
increase performed while processing an element (or a doctype internal
subset) is paired with a decrease on the successful path, so processing any
node preserves the level, and the pipeline starts at level zero.
-/
theorem claim_C10 (opts : FmtOptions) (doc : XDocument) (st' : FmtState)
    (h : runFormatter opts doc = .ok st') : st'.indentation_level = 0 := by
  unfold runFormatter at h
  obtain ⟨st1, h1, h2⟩ := bind_ok _ _ _ h
  cases h2
  have := process_document_node_preserves opts doc _ _ h1
  rw [show ({ st1 with
    result := postprocess opts.max_line_length st1.result } :
      FmtState).indentation_level = st1.indentation_level from rfl]
  rw [this]

/-- C10 witness: the theorem applied to the formatting run of the document
`<root/>` (no XML declaration data) with default options. -/
theorem claim_C10_witness :
    (FmtState.mk 0
      ["<?xml version=\"1.0\" encoding=\"UTF-8\"?>\n".data,
        "<root/>".data]).indentation_level = 0 :=
  claim_C10 {} ⟨none, none, none, [.element "root".data [] []]⟩ _ (by rfl)

end XmlFmt
